import Mathlib

/-!
Shallow embedding of `lib/model/service_map.go` (the `serviceMap` keyed
service registry) and verification of its specified properties.

Go maps are embedded as association lists with Go map semantics
(`mapLookup`, `mapInsert`, `mapDelete`).  Calls into the external
collaborators (the suture Supervisor and the events Logger) are recorded
as an `Effect` trace; the abstract `suture.ServiceToken` returned by
`Supervisor.Add` is modelled by a fresh natural number drawn from a
counter `nextToken`.
-/

namespace ServiceMapSpec

/-- Go map read `m[k]`: the value at key `k`, if present. -/
def mapLookup {K V : Type} [DecidableEq K] : List (K × V) → K → Option V
  | [], _ => none
  | (a, v) :: rest, k => if a = k then some v else mapLookup rest k

/-- Go map write `m[k] = v`: replace in place if the key is present,
otherwise append a new entry. -/
def mapInsert {K V : Type} [DecidableEq K] : List (K × V) → K → V → List (K × V)
  | [], k, v => [(k, v)]
  | (a, w) :: rest, k, v =>
      if a = k then (a, v) :: rest else (a, w) :: mapInsert rest k v

/-- Go `delete(m, k)`: drop every entry with key `k`. -/
def mapDelete {K V : Type} [DecidableEq K] : List (K × V) → K → List (K × V)
  | [], _ => []
  | (a, v) :: rest, k =>
      if a = k then mapDelete rest k else (a, v) :: mapDelete rest k

/-- The keys of the map appear at most once. -/
def keysNodup {K V : Type} (m : List (K × V)) : Prop :=
  (m.map Prod.fst).Nodup

/-- A call issued by the registry to one of its collaborators:
`supStart v tok` is `supervisor.Add(v)` returning token `tok`,
`supRemove tok` is `supervisor.Remove(tok)`,
`supRemoveAndWait tok timeout` is `supervisor.RemoveAndWait(tok, timeout)`,
`logFailure k` is `eventLogger.Log(events.Failure, ...)` for key `k`. -/
inductive Effect (K S : Type) where
  | supStart : S → Nat → Effect K S
  | supRemove : Nat → Effect K S
  | supRemoveAndWait : Nat → Nat → Effect K S
  | logFailure : K → Effect K S
deriving DecidableEq

/-- The state of a `serviceMap[K, S]`: the `services` and `tokens` maps,
plus the counter from which the supervisor model draws fresh tokens. -/
structure ServiceMap (K S : Type) where
  services : List (K × S)
  tokens : List (K × Nat)
  nextToken : Nat
deriving DecidableEq

/-- `newServiceMap`: both maps start empty. -/
def newServiceMap {K S : Type} : ServiceMap K S :=
  { services := [], tokens := [], nextToken := 0 }

/-- `serviceMap.Add`: if a token exists at `k`, first issue
`supervisor.Remove` on it and log the replacement; then store the
service and the token returned by `supervisor.Add(v)`.
Returns the new state and the trace of issued calls, in order. -/
def ServiceMap.Add {K S : Type} [DecidableEq K] (s : ServiceMap K S) (k : K) (v : S) :
    ServiceMap K S × List (Effect K S) :=
  let pre : List (Effect K S) :=
    match mapLookup s.tokens k with
    | some tok => [Effect.supRemove tok, Effect.logFailure k]
    | none => []
  ⟨{ services := mapInsert s.services k v,
     tokens := mapInsert s.tokens k s.nextToken,
     nextToken := s.nextToken + 1 },
   pre ++ [Effect.supStart v s.nextToken]⟩

/-- `serviceMap.Get`: a pure map read; the state is untouched, no
collaborator call is issued, and the result is the service with `true`,
or the zero value with `false`. -/
def ServiceMap.Get {K S : Type} [DecidableEq K] [Inhabited S] (s : ServiceMap K S) (k : K) :
    ServiceMap K S × List (Effect K S) × (S × Bool) :=
  ⟨s, [],
    match mapLookup s.services k with
    | some v => (v, true)
    | none => (default, false)⟩

/-- `serviceMap.Remove`: if a token exists at `k`, issue
`supervisor.Remove` on it and report `found = true`; in all cases delete
`k` from both maps.  Returns state, trace and the `found` flag. -/
def ServiceMap.Remove {K S : Type} [DecidableEq K] (s : ServiceMap K S) (k : K) :
    ServiceMap K S × List (Effect K S) × Bool :=
  let fe : List (Effect K S) × Bool :=
    match mapLookup s.tokens k with
    | some tok => ([Effect.supRemove tok], true)
    | none => ([], false)
  ⟨{ services := mapDelete s.services k,
     tokens := mapDelete s.tokens k,
     nextToken := s.nextToken },
   fe.1, fe.2⟩

/-- `serviceMap.RemoveAndWait`: as `Remove`, but the supervisor call is
the blocking `supervisor.RemoveAndWait(tok, timeout)`.  The parameter
`completed` models the supervisor-side outcome of that wait (finished
before the timeout or not); the Go code discards that outcome, so
`completed` is never consulted. -/
def ServiceMap.RemoveAndWait {K S : Type} [DecidableEq K] (s : ServiceMap K S) (k : K)
    (timeout : Nat) (completed : Bool) :
    ServiceMap K S × List (Effect K S) × Bool :=
  let fe : List (Effect K S) × Bool :=
    match mapLookup s.tokens k with
    | some tok => ([Effect.supRemoveAndWait tok timeout], true)
    | none => ([], false)
  ⟨{ services := mapDelete s.services k,
     tokens := mapDelete s.tokens k,
     nextToken := s.nextToken },
   fe.1, fe.2⟩

/-- `serviceMap.Each`: invoke the visitor on each entry of `services`,
in iteration order; the state is untouched.  Returns the state and the
list of visitor results, one per visited entry. -/
def ServiceMap.Each {K S A : Type} (s : ServiceMap K S) (visit : K → S → A) :
    ServiceMap K S × List A :=
  ⟨s, s.services.map fun p => visit p.1 p.2⟩

/-- The external Supervisor collaborator, abstracted to the one thing
`serviceMap.Serve` consults: the result of its own `Serve` run loop on a
given cancellation context (`none` = nil error). -/
structure SupervisorModel (Ctx E : Type) where
  serveResult : Ctx → Option E

/-- `serviceMap.Serve`: delegates to `supervisor.Serve(ctx)` and returns
its result. -/
def serveServiceMap {Ctx E : Type} (sup : SupervisorModel Ctx E) (ctx : Ctx) : Option E :=
  sup.serveResult ctx

/-- One caller-visible registry operation, for invariant statements over
operation sequences.  `removeAndWait` carries the timeout and the
supervisor-side wait outcome. -/
inductive Op (K S : Type) where
  | add : K → S → Op K S
  | remove : K → Op K S
  | removeAndWait : K → Nat → Bool → Op K S

/-- The state reached by one operation. -/
def applyOp {K S : Type} [DecidableEq K] (s : ServiceMap K S) : Op K S → ServiceMap K S
  | Op.add k v => (s.Add k v).1
  | Op.remove k => (s.Remove k).1
  | Op.removeAndWait k t c => (s.RemoveAndWait k t c).1

/-- The state reached by a sequence of operations. -/
def applyOps {K S : Type} [DecidableEq K] (s : ServiceMap K S) (ops : List (Op K S)) :
    ServiceMap K S :=
  ops.foldl applyOp s

/-- A state reachable from a freshly constructed registry. -/
def Reachable {K S : Type} [DecidableEq K] (s : ServiceMap K S) : Prop :=
  ∃ ops : List (Op K S), s = applyOps newServiceMap ops

/-- The two maps hold exactly the same keys. -/
def sameKeys {K S : Type} [DecidableEq K] (s : ServiceMap K S) : Prop :=
  ∀ k : K, (mapLookup s.services k).isSome = (mapLookup s.tokens k).isSome

/-- Effect classifiers used to count collaborator calls in a trace. -/
def isStart {K S : Type} : Effect K S → Bool
  | Effect.supStart _ _ => true
  | _ => false

def isStartOf {K S : Type} [DecidableEq S] (v : S) : Effect K S → Bool
  | Effect.supStart w _ => w = v
  | _ => false

def isStop {K S : Type} : Effect K S → Bool
  | Effect.supRemove _ => true
  | _ => false

def isStopOf {K S : Type} (tok : Nat) : Effect K S → Bool
  | Effect.supRemove t => t = tok
  | _ => false

def isLog {K S : Type} : Effect K S → Bool
  | Effect.logFailure _ => true
  | _ => false

/-- The reachability invariant: the two maps hold the same keys and the
keys of each map are duplicate-free. -/
def WellFormed {K S : Type} [DecidableEq K] (s : ServiceMap K S) : Prop :=
  sameKeys s ∧ keysNodup s.services ∧ keysNodup s.tokens

/-- A concrete reachable registry used to instantiate the theorems:
one Add of service `5` at key `0`. -/
def sampleReg : ServiceMap Nat Nat :=
  applyOps newServiceMap [Op.add 0 5]

/-! Basic lemmas about the embedded Go map operations. -/

theorem mapLookup_mapInsert_self {K V : Type} [DecidableEq K] (m : List (K × V)) (k : K) (v : V) :
    mapLookup (mapInsert m k v) k = some v := by
  induction m with
  | nil => simp [mapInsert, mapLookup]
  | cons p rest ih =>
      obtain ⟨a, w⟩ := p
      by_cases h : a = k
      · simp [mapInsert, mapLookup, h]
      · simp [mapInsert, mapLookup, h, ih]

theorem mapLookup_mapInsert_ne {K V : Type} [DecidableEq K] (m : List (K × V)) (k j : K) (v : V)
    (h : j ≠ k) : mapLookup (mapInsert m k v) j = mapLookup m j := by
  induction m with
  | nil => simp [mapInsert, mapLookup, Ne.symm h]
  | cons p rest ih =>
      obtain ⟨a, w⟩ := p
      by_cases hak : a = k
      · subst hak
        simp [mapInsert, mapLookup, Ne.symm h]
      · by_cases haj : a = j
        · subst haj
          simp [mapInsert, mapLookup, hak]
        · simp [mapInsert, mapLookup, hak, haj, ih]

theorem mapLookup_mapDelete_self {K V : Type} [DecidableEq K] (m : List (K × V)) (k : K) :
    mapLookup (mapDelete m k) k = none := by
  induction m with
  | nil => simp [mapDelete, mapLookup]
  | cons p rest ih =>
      obtain ⟨a, w⟩ := p
      by_cases h : a = k
      · simp [mapDelete, h, ih]
      · simp [mapDelete, mapLookup, h, ih]

theorem mapLookup_mapDelete_ne {K V : Type} [DecidableEq K] (m : List (K × V)) (k j : K)
    (h : j ≠ k) : mapLookup (mapDelete m k) j = mapLookup m j := by
  induction m with
  | nil => simp [mapDelete]
  | cons p rest ih =>
      obtain ⟨a, w⟩ := p
      by_cases hak : a = k
      · subst hak
        simp [mapDelete, mapLookup, Ne.symm h, ih]
      · by_cases haj : a = j
        · subst haj
          simp [mapDelete, mapLookup, hak]
        · simp [mapDelete, mapLookup, hak, haj, ih]

theorem mapLookup_eq_none_iff {K V : Type} [DecidableEq K] (m : List (K × V)) (k : K) :
    mapLookup m k = none ↔ k ∉ m.map Prod.fst := by
  induction m with
  | nil => simp [mapLookup]
  | cons p rest ih =>
      obtain ⟨a, w⟩ := p
      by_cases h : a = k
      · simp [mapLookup, h]
      · have hka : ¬k = a := fun hv => h hv.symm
        simp only [mapLookup, h, if_false, List.map_cons, List.mem_cons, not_or, ih]
        tauto

theorem mapInsert_keys_mem {K V : Type} [DecidableEq K] (m : List (K × V)) (k : K) (v : V)
    (a : K) : a ∈ (mapInsert m k v).map Prod.fst ↔ a = k ∨ a ∈ m.map Prod.fst := by
  induction m with
  | nil => simp [mapInsert]
  | cons p rest ih =>
      obtain ⟨b, w⟩ := p
      by_cases hbk : b = k
      · subst hbk
        simp [mapInsert]
      · simp [mapInsert, hbk, ih]
        tauto

theorem mapDelete_keys_subset {K V : Type} [DecidableEq K] (m : List (K × V)) (k : K)
    (a : K) : a ∈ (mapDelete m k).map Prod.fst → a ∈ m.map Prod.fst := by
  induction m with
  | nil => simp [mapDelete]
  | cons p rest ih =>
      obtain ⟨b, w⟩ := p
      by_cases hbk : b = k
      · intro hmem
        simp only [mapDelete, hbk, if_true] at hmem
        exact List.mem_cons_of_mem _ (ih hmem)
      · intro hmem
        simp only [mapDelete, hbk, if_false, List.map_cons, List.mem_cons] at hmem
        rcases hmem with hv | hv
        · simp [hv]
        · exact List.mem_cons_of_mem _ (ih hv)

theorem keysNodup_mapInsert {K V : Type} [DecidableEq K] (m : List (K × V)) (k : K) (v : V)
    (h : keysNodup m) : keysNodup (mapInsert m k v) := by
  induction m with
  | nil => simp [mapInsert, keysNodup]
  | cons p rest ih =>
      obtain ⟨a, w⟩ := p
      unfold keysNodup at h
      simp only [List.map_cons, List.nodup_cons] at h
      by_cases hak : a = k
      · subst hak
        unfold keysNodup
        simpa [mapInsert] using h
      · unfold keysNodup
        simp only [mapInsert, hak, if_false, List.map_cons, List.nodup_cons]
        refine ⟨?_, ih h.2⟩
        intro hmem
        rcases (mapInsert_keys_mem rest k v a).1 hmem with hv | hv
        · exact hak hv
        · exact h.1 hv

theorem keysNodup_mapDelete {K V : Type} [DecidableEq K] (m : List (K × V)) (k : K)
    (h : keysNodup m) : keysNodup (mapDelete m k) := by
  induction m with
  | nil => simpa [mapDelete] using h
  | cons p rest ih =>
      obtain ⟨a, w⟩ := p
      unfold keysNodup at h
      simp only [List.map_cons, List.nodup_cons] at h
      by_cases hak : a = k
      · simpa [mapDelete, hak] using ih h.2
      · unfold keysNodup
        simp only [mapDelete, hak, if_false, List.map_cons, List.nodup_cons]
        refine ⟨?_, ih h.2⟩
        intro hmem
        exact h.1 (mapDelete_keys_subset rest k a hmem)

/-! Unfolding lemmas for the registry operations. -/

theorem Add_services {K S : Type} [DecidableEq K] (s : ServiceMap K S) (k : K) (v : S) :
    (s.Add k v).1.services = mapInsert s.services k v := rfl

theorem Add_tokens {K S : Type} [DecidableEq K] (s : ServiceMap K S) (k : K) (v : S) :
    (s.Add k v).1.tokens = mapInsert s.tokens k s.nextToken := rfl

theorem Add_trace_occupied {K S : Type} [DecidableEq K] (s : ServiceMap K S) (k : K) (v : S)
    (tok : Nat) (htok : mapLookup s.tokens k = some tok) :
    (s.Add k v).2 =
      [Effect.supRemove tok, Effect.logFailure k, Effect.supStart v s.nextToken] := by
  simp [ServiceMap.Add, htok]

theorem Add_trace_vacant {K S : Type} [DecidableEq K] (s : ServiceMap K S) (k : K) (v : S)
    (htok : mapLookup s.tokens k = none) :
    (s.Add k v).2 = [Effect.supStart v s.nextToken] := by
  simp [ServiceMap.Add, htok]

theorem Get_state {K S : Type} [DecidableEq K] [Inhabited S] (s : ServiceMap K S) (k : K) :
    (s.Get k).1 = s := rfl

theorem Get_trace {K S : Type} [DecidableEq K] [Inhabited S] (s : ServiceMap K S) (k : K) :
    (s.Get k).2.1 = [] := rfl

theorem Get_result_present {K S : Type} [DecidableEq K] [Inhabited S] (s : ServiceMap K S)
    (k : K) (v : S) (h : mapLookup s.services k = some v) : (s.Get k).2.2 = (v, true) := by
  simp [ServiceMap.Get, h]

theorem Get_result_absent {K S : Type} [DecidableEq K] [Inhabited S] (s : ServiceMap K S)
    (k : K) (h : mapLookup s.services k = none) : (s.Get k).2.2 = (default, false) := by
  simp [ServiceMap.Get, h]

theorem Remove_services {K S : Type} [DecidableEq K] (s : ServiceMap K S) (k : K) :
    (s.Remove k).1.services = mapDelete s.services k := rfl

theorem Remove_tokens {K S : Type} [DecidableEq K] (s : ServiceMap K S) (k : K) :
    (s.Remove k).1.tokens = mapDelete s.tokens k := rfl

theorem Remove_found {K S : Type} [DecidableEq K] (s : ServiceMap K S) (k : K) :
    (s.Remove k).2.2 = (mapLookup s.tokens k).isSome := by
  cases h : mapLookup s.tokens k <;> simp [ServiceMap.Remove, h]

theorem Remove_trace_occupied {K S : Type} [DecidableEq K] (s : ServiceMap K S) (k : K)
    (tok : Nat) (htok : mapLookup s.tokens k = some tok) :
    (s.Remove k).2.1 = [Effect.supRemove tok] := by
  simp [ServiceMap.Remove, htok]

theorem Remove_trace_vacant {K S : Type} [DecidableEq K] (s : ServiceMap K S) (k : K)
    (htok : mapLookup s.tokens k = none) : (s.Remove k).2.1 = [] := by
  simp [ServiceMap.Remove, htok]

theorem RemoveAndWait_services {K S : Type} [DecidableEq K] (s : ServiceMap K S) (k : K)
    (t : Nat) (c : Bool) : (s.RemoveAndWait k t c).1.services = mapDelete s.services k := rfl

theorem RemoveAndWait_tokens {K S : Type} [DecidableEq K] (s : ServiceMap K S) (k : K)
    (t : Nat) (c : Bool) : (s.RemoveAndWait k t c).1.tokens = mapDelete s.tokens k := rfl

theorem RemoveAndWait_found {K S : Type} [DecidableEq K] (s : ServiceMap K S) (k : K)
    (t : Nat) (c : Bool) : (s.RemoveAndWait k t c).2.2 = (mapLookup s.tokens k).isSome := by
  cases h : mapLookup s.tokens k <;> simp [ServiceMap.RemoveAndWait, h]

theorem RemoveAndWait_trace_occupied {K S : Type} [DecidableEq K] (s : ServiceMap K S)
    (k : K) (t : Nat) (c : Bool) (tok : Nat) (htok : mapLookup s.tokens k = some tok) :
    (s.RemoveAndWait k t c).2.1 = [Effect.supRemoveAndWait tok t] := by
  simp [ServiceMap.RemoveAndWait, htok]

theorem RemoveAndWait_trace_vacant {K S : Type} [DecidableEq K] (s : ServiceMap K S)
    (k : K) (t : Nat) (c : Bool) (htok : mapLookup s.tokens k = none) :
    (s.RemoveAndWait k t c).2.1 = [] := by
  simp [ServiceMap.RemoveAndWait, htok]

theorem RemoveAndWait_outcome_ignored {K S : Type} [DecidableEq K] (s : ServiceMap K S)
    (k : K) (t : Nat) (c d : Bool) : s.RemoveAndWait k t c = s.RemoveAndWait k t d := rfl

/-! The reachability invariant: the two maps stay in lock-step and their
keys stay duplicate-free. -/

theorem wellFormed_new {K S : Type} [DecidableEq K] :
    WellFormed (newServiceMap : ServiceMap K S) := by
  refine ⟨fun k => rfl, ?_, ?_⟩ <;> simp [newServiceMap, keysNodup]

theorem wellFormed_applyOp {K S : Type} [DecidableEq K] (s : ServiceMap K S) (o : Op K S)
    (h : WellFormed s) : WellFormed (applyOp s o) := by
  obtain ⟨hsk, hns, hnt⟩ := h
  cases o with
  | add k v =>
      refine ⟨?_, ?_, ?_⟩
      · intro j
        by_cases hj : j = k
        · subst hj
          simp [applyOp, Add_services, Add_tokens, mapLookup_mapInsert_self]
        · simp [applyOp, Add_services, Add_tokens, mapLookup_mapInsert_ne _ _ _ _ hj, hsk j]
      · simpa [applyOp, Add_services] using keysNodup_mapInsert _ _ _ hns
      · simpa [applyOp, Add_tokens] using keysNodup_mapInsert _ _ _ hnt
  | remove k =>
      refine ⟨?_, ?_, ?_⟩
      · intro j
        by_cases hj : j = k
        · subst hj
          simp [applyOp, Remove_services, Remove_tokens, mapLookup_mapDelete_self]
        · simp [applyOp, Remove_services, Remove_tokens,
            mapLookup_mapDelete_ne _ _ _ hj, hsk j]
      · simpa [applyOp, Remove_services] using keysNodup_mapDelete _ _ hns
      · simpa [applyOp, Remove_tokens] using keysNodup_mapDelete _ _ hnt
  | removeAndWait k t c =>
      refine ⟨?_, ?_, ?_⟩
      · intro j
        by_cases hj : j = k
        · subst hj
          simp [applyOp, RemoveAndWait_services, RemoveAndWait_tokens,
            mapLookup_mapDelete_self]
        · simp [applyOp, RemoveAndWait_services, RemoveAndWait_tokens,
            mapLookup_mapDelete_ne _ _ _ hj, hsk j]
      · simpa [applyOp, RemoveAndWait_services] using keysNodup_mapDelete _ _ hns
      · simpa [applyOp, RemoveAndWait_tokens] using keysNodup_mapDelete _ _ hnt

theorem wellFormed_applyOps {K S : Type} [DecidableEq K] (s : ServiceMap K S)
    (ops : List (Op K S)) (h : WellFormed s) : WellFormed (applyOps s ops) := by
  induction ops generalizing s with
  | nil => exact h
  | cons o rest ih => exact ih _ (wellFormed_applyOp s o h)

theorem reachable_wellFormed {K S : Type} [DecidableEq K] (s : ServiceMap K S)
    (h : Reachable s) : WellFormed s := by
  obtain ⟨ops, rfl⟩ := h
  exact wellFormed_applyOps _ ops wellFormed_new

/-! Counting lemmas used for the iteration and effect-count claims. -/

theorem Get_found {K S : Type} [DecidableEq K] [Inhabited S] (s : ServiceMap K S) (k : K) :
    (s.Get k).2.2.2 = (mapLookup s.services k).isSome := by
  cases h : mapLookup s.services k <;> simp [ServiceMap.Get, h]

theorem Get_result_congr {K S : Type} [DecidableEq K] [Inhabited S]
    (s1 s2 : ServiceMap K S) (j : K)
    (h : mapLookup s1.services j = mapLookup s2.services j) :
    (s1.Get j).2.2 = (s2.Get j).2.2 := by
  simp only [ServiceMap.Get, h]

theorem countP_key_eq_zero {K V : Type} [DecidableEq K] (m : List (K × V)) (k : K)
    (h : k ∉ m.map Prod.fst) : m.countP (fun p => decide (p.1 = k)) = 0 := by
  rw [List.countP_eq_zero]
  intro p hp hdec
  exact h (by simpa [of_decide_eq_true hdec] using List.mem_map_of_mem Prod.fst hp)

theorem countP_key_of_nodup {K V : Type} [DecidableEq K] (m : List (K × V)) (k : K)
    (h : keysNodup m) :
    m.countP (fun p => decide (p.1 = k)) = if (mapLookup m k).isSome then 1 else 0 := by
  induction m with
  | nil => simp [mapLookup]
  | cons p rest ih =>
      obtain ⟨a, w⟩ := p
      unfold keysNodup at h
      simp only [List.map_cons, List.nodup_cons] at h
      by_cases hak : a = k
      · subst hak
        have hz : rest.countP (fun p => decide (p.1 = a)) = 0 :=
          countP_key_eq_zero rest a h.1
        simp [List.countP_cons, mapLookup, hz]
      · have hrest := ih h.2
        simp [List.countP_cons, mapLookup, hak, hrest]

theorem countP_entry_of_nodup {K V : Type} [DecidableEq K] [DecidableEq V]
    (m : List (K × V)) (k : K) (v : V) (h : keysNodup m)
    (hl : mapLookup m k = some v) :
    m.countP (fun p => decide (p = (k, v))) = 1 := by
  induction m with
  | nil => simp [mapLookup] at hl
  | cons p rest ih =>
      obtain ⟨a, w⟩ := p
      unfold keysNodup at h
      simp only [List.map_cons, List.nodup_cons] at h
      by_cases hak : a = k
      · subst hak
        simp [mapLookup] at hl
        subst hl
        have hz : rest.countP (fun p => decide (p = (a, w))) = 0 := by
          rw [List.countP_eq_zero]
          intro q hq hdec
          have hqa : q.1 = a := by rw [of_decide_eq_true hdec]
          exact h.1 (by simpa [hqa] using List.mem_map_of_mem Prod.fst hq)
        simp [List.countP_cons, hz]
      · simp only [mapLookup, if_neg hak] at hl
        have hne : ¬((a, w) = (k, v)) := fun he => hak (congrArg Prod.fst he)
        simp [List.countP_cons, hne, ih h.2 hl]

/-! The claims. -/

/-- C1: Map-consistency invariant: for every sequence of Add/Remove/RemoveAndWait
operations starting from a freshly constructed registry, after each operation the
`services` map and the `tokens` map contain exactly the same set of keys. -/
theorem C1_map_consistency {K S : Type} [DecidableEq K] (ops : List (Op K S)) :
    sameKeys (applyOps (newServiceMap : ServiceMap K S) ops) :=
  (wellFormed_applyOps _ ops wellFormed_new).1

/-- C2: Add on an occupied key replaces the occupant: in every reachable registry
state in which key `k` holds a service, `Add k v` issues exactly one supervisor
Remove for the token of the prior service, emits exactly one Event Logger notification,
issues exactly one supervisor Add (start) for `v`, and afterwards `Get k` returns
`(v, true)`. -/
theorem C2_add_replaces_occupant {K S : Type} [DecidableEq K] [DecidableEq S] [Inhabited S]
    (s : ServiceMap K S) (k : K) (v : S) (hr : Reachable s)
    (hocc : (s.Get k).2.2.2 = true) :
    ∃ tok : Nat, mapLookup s.tokens k = some tok ∧
      (s.Add k v).2.countP (isStopOf tok) = 1 ∧
      (s.Add k v).2.countP isLog = 1 ∧
      (s.Add k v).2.countP (isStartOf v) = 1 ∧
      ((s.Add k v).1.Get k).2.2 = (v, true) := by
  have hwf := reachable_wellFormed s hr
  rw [Get_found] at hocc
  rw [hwf.1 k] at hocc
  obtain ⟨tok, htok⟩ := Option.isSome_iff_exists.mp hocc
  have htr := Add_trace_occupied s k v tok htok
  refine ⟨tok, htok, ?_, ?_, ?_, ?_⟩
  · rw [htr]
    simp [isStopOf, List.countP_cons]
  · rw [htr]
    simp [isLog, List.countP_cons]
  · rw [htr]
    simp [isStartOf, List.countP_cons]
  · have hv : mapLookup (s.Add k v).1.services k = some v := by
      rw [Add_services]
      exact mapLookup_mapInsert_self _ _ _
    exact Get_result_present _ _ _ hv

/-- Witness for C2 at the concrete reachable state `sampleReg`, key 0,
new service 7. -/
theorem C2_add_replaces_occupant_witness :
    Reachable sampleReg ∧ ((sampleReg.Get 0).2.2.2 = true) ∧
    (∃ tok : Nat, mapLookup sampleReg.tokens 0 = some tok ∧
      (sampleReg.Add 0 7).2.countP (isStopOf tok) = 1 ∧
      (sampleReg.Add 0 7).2.countP isLog = 1 ∧
      (sampleReg.Add 0 7).2.countP (isStartOf 7) = 1 ∧
      ((sampleReg.Add 0 7).1.Get 0).2.2 = (7, true)) :=
  ⟨⟨[Op.add 0 5], rfl⟩, rfl,
    C2_add_replaces_occupant sampleReg 0 7 ⟨[Op.add 0 5], rfl⟩ rfl⟩

/-- C3: Remove semantics and idempotence: in every reachable registry state,
`Remove k` returns `false` and issues no supervisor stop when `k` is absent;
when `k` is present it returns `true`, deletes `k` from both maps, and issues
exactly one supervisor stop; and a repeated `Remove k` on the already-removed
key returns `false`. -/
theorem C3_remove_semantics {K S : Type} [DecidableEq K] [Inhabited S]
    (s : ServiceMap K S) (k : K) (hr : Reachable s) :
    ((s.Get k).2.2.2 = false → (s.Remove k).2.2 = false ∧ (s.Remove k).2.1 = []) ∧
    ((s.Get k).2.2.2 = true → (s.Remove k).2.2 = true ∧
      (s.Remove k).2.1.countP isStop = 1 ∧
      mapLookup (s.Remove k).1.services k = none ∧
      mapLookup (s.Remove k).1.tokens k = none) ∧
    ((s.Remove k).1.Remove k).2.2 = false := by
  have hwf := reachable_wellFormed s hr
  refine ⟨?_, ?_, ?_⟩
  · intro habs
    rw [Get_found, hwf.1 k] at habs
    have htok : mapLookup s.tokens k = none := by
      cases hv : mapLookup s.tokens k with
      | none => rfl
      | some tok => rw [hv] at habs; simp at habs
    exact ⟨by rw [Remove_found, htok]; rfl, Remove_trace_vacant s k htok⟩
  · intro hpres
    rw [Get_found, hwf.1 k] at hpres
    obtain ⟨tok, htok⟩ := Option.isSome_iff_exists.mp hpres
    refine ⟨by rw [Remove_found, htok]; rfl, ?_, ?_, ?_⟩
    · rw [Remove_trace_occupied s k tok htok]
      simp [isStop, List.countP_cons]
    · rw [Remove_services]
      exact mapLookup_mapDelete_self _ _
    · rw [Remove_tokens]
      exact mapLookup_mapDelete_self _ _
  · rw [Remove_found, Remove_tokens, mapLookup_mapDelete_self]
    rfl

/-- Witness for C3 at the concrete reachable state `sampleReg`, key 0. -/
theorem C3_remove_semantics_witness :
    Reachable sampleReg ∧
    (((sampleReg.Get 0).2.2.2 = false →
        (sampleReg.Remove 0).2.2 = false ∧ (sampleReg.Remove 0).2.1 = []) ∧
     ((sampleReg.Get 0).2.2.2 = true → (sampleReg.Remove 0).2.2 = true ∧
        (sampleReg.Remove 0).2.1.countP isStop = 1 ∧
        mapLookup (sampleReg.Remove 0).1.services 0 = none ∧
        mapLookup (sampleReg.Remove 0).1.tokens 0 = none) ∧
     ((sampleReg.Remove 0).1.Remove 0).2.2 = false) :=
  ⟨⟨[Op.add 0 5], rfl⟩, C3_remove_semantics sampleReg 0 ⟨[Op.add 0 5], rfl⟩⟩

/-- C4: RemoveAndWait bookkeeping and result: in every reachable registry state,
for every timeout and every supervisor-side wait outcome, `RemoveAndWait k`
deletes `k` from both maps regardless of the outcome, returns `true` exactly when
a service was registered at `k` (`false`, with an empty call trace and hence no
wait, when absent), and its state, trace and result are identical for every wait
outcome, so the boolean carries no signal distinguishing a timely stop from a
timed-out one. -/
theorem C4_removeAndWait_bookkeeping {K S : Type} [DecidableEq K] [Inhabited S]
    (s : ServiceMap K S) (k : K) (t : Nat) (c : Bool) (hr : Reachable s) :
    mapLookup (s.RemoveAndWait k t c).1.services k = none ∧
    mapLookup (s.RemoveAndWait k t c).1.tokens k = none ∧
    (s.RemoveAndWait k t c).2.2 = (s.Get k).2.2.2 ∧
    ((s.Get k).2.2.2 = false → (s.RemoveAndWait k t c).2.1 = []) ∧
    (∀ d : Bool, s.RemoveAndWait k t c = s.RemoveAndWait k t d) := by
  have hwf := reachable_wellFormed s hr
  refine ⟨?_, ?_, ?_, ?_, ?_⟩
  · rw [RemoveAndWait_services]
    exact mapLookup_mapDelete_self _ _
  · rw [RemoveAndWait_tokens]
    exact mapLookup_mapDelete_self _ _
  · rw [RemoveAndWait_found, Get_found, hwf.1 k]
  · intro habs
    rw [Get_found, hwf.1 k] at habs
    have htok : mapLookup s.tokens k = none := by
      cases hv : mapLookup s.tokens k with
      | none => rfl
      | some tok => rw [hv] at habs; simp at habs
    exact RemoveAndWait_trace_vacant s k t c htok
  · intro d
    exact RemoveAndWait_outcome_ignored s k t c d

/-- Witness for C4 at the concrete reachable state `sampleReg`, key 0,
timeout 3, wait outcome `false` (timed out). -/
theorem C4_removeAndWait_bookkeeping_witness :
    Reachable sampleReg ∧
    (mapLookup (sampleReg.RemoveAndWait 0 3 false).1.services 0 = none ∧
     mapLookup (sampleReg.RemoveAndWait 0 3 false).1.tokens 0 = none ∧
     (sampleReg.RemoveAndWait 0 3 false).2.2 = (sampleReg.Get 0).2.2.2 ∧
     ((sampleReg.Get 0).2.2.2 = false → (sampleReg.RemoveAndWait 0 3 false).2.1 = []) ∧
     (∀ d : Bool, sampleReg.RemoveAndWait 0 3 false = sampleReg.RemoveAndWait 0 3 d)) :=
  ⟨⟨[Op.add 0 5], rfl⟩,
    C4_removeAndWait_bookkeeping sampleReg 0 3 false ⟨[Op.add 0 5], rfl⟩⟩

/-- C5: Get semantics: for every registry state, `Get k` returns the registered
service with `true` when `k` is present and the zero value with `false` when
absent, leaves the registry state unchanged, and issues no supervisor or logger
call (empty call trace). -/
theorem C5_get_semantics {K S : Type} [DecidableEq K] [Inhabited S]
    (s : ServiceMap K S) (k : K) :
    (∀ v : S, mapLookup s.services k = some v → (s.Get k).2.2 = (v, true)) ∧
    (mapLookup s.services k = none → (s.Get k).2.2 = (default, false)) ∧
    (s.Get k).1 = s ∧ (s.Get k).2.1 = [] :=
  ⟨fun v hv => Get_result_present s k v hv, fun h => Get_result_absent s k h, rfl, rfl⟩

/-- Witness for C5 at the concrete state `sampleReg`, key 0. -/
theorem C5_get_semantics_witness :
    (∀ v : Nat, mapLookup sampleReg.services 0 = some v → (sampleReg.Get 0).2.2 = (v, true)) ∧
    (mapLookup sampleReg.services 0 = none → (sampleReg.Get 0).2.2 = (default, false)) ∧
    (sampleReg.Get 0).1 = sampleReg ∧ (sampleReg.Get 0).2.1 = [] :=
  C5_get_semantics sampleReg 0

/-- C6: Each visitation: in every reachable registry state, `Each` leaves the
state unchanged and its visit trace contains exactly one visit for each
(key, service) pair currently in `services` — every registered key exactly once,
and no visit for any key absent from the map (such as one removed before the
call). -/
theorem C6_each_visitation {K S : Type} [DecidableEq K] [DecidableEq S]
    (s : ServiceMap K S) (hr : Reachable s) :
    (∀ (A : Type) (visit : K → S → A), (s.Each visit).1 = s) ∧
    (∀ (k : K) (v : S), mapLookup s.services k = some v →
      ((s.Each fun a b => (a, b)).2.countP fun p => decide (p = (k, v))) = 1) ∧
    (∀ k : K, mapLookup s.services k = none →
      ((s.Each fun a b => (a, b)).2.countP fun p => decide (p.1 = k)) = 0) := by
  have hwf := reachable_wellFormed s hr
  have heach : (s.Each fun a b => (a, b)).2 = s.services := by
    simp [ServiceMap.Each]
  refine ⟨fun A visit => rfl, ?_, ?_⟩
  · intro k v hv
    rw [heach]
    exact countP_entry_of_nodup s.services k v hwf.2.1 hv
  · intro k hnone
    rw [heach]
    exact countP_key_eq_zero s.services k ((mapLookup_eq_none_iff _ _).mp hnone)

/-- Witness for C6 at the concrete reachable state `sampleReg`. -/
theorem C6_each_visitation_witness :
    Reachable sampleReg ∧
    ((∀ (A : Type) (visit : Nat → Nat → A), (sampleReg.Each visit).1 = sampleReg) ∧
     (∀ (k v : Nat), mapLookup sampleReg.services k = some v →
       ((sampleReg.Each fun a b => (a, b)).2.countP fun p => decide (p = (k, v))) = 1) ∧
     (∀ k : Nat, mapLookup sampleReg.services k = none →
       ((sampleReg.Each fun a b => (a, b)).2.countP fun p => decide (p.1 = k)) = 0)) :=
  ⟨⟨[Op.add 0 5], rfl⟩, C6_each_visitation sampleReg ⟨[Op.add 0 5], rfl⟩⟩

/-- C7: Serve error propagation: for every supervisor model and every
cancellation-signal input, the Serve of the registry returns exactly the value
(error or nil) of what the Serve run loop of the Supervisor itself reports, unmodified, and in
particular returns nil whenever the Supervisor reports nil. -/
theorem C7_serve_propagation {Ctx E : Type} (sup : SupervisorModel Ctx E) (ctx : Ctx) :
    serveServiceMap sup ctx = sup.serveResult ctx ∧
    (sup.serveResult ctx = none → serveServiceMap sup ctx = none) :=
  ⟨rfl, fun h => h⟩

/-- Witness for C7 at a concrete supervisor model that reports no error. -/
theorem C7_serve_propagation_witness :
    serveServiceMap (SupervisorModel.mk fun _ : Nat => (none : Option Nat)) 0 =
      (SupervisorModel.mk fun _ : Nat => (none : Option Nat)).serveResult 0 ∧
    ((SupervisorModel.mk fun _ : Nat => (none : Option Nat)).serveResult 0 = none →
      serveServiceMap (SupervisorModel.mk fun _ : Nat => (none : Option Nat)) 0 = none) :=
  C7_serve_propagation (SupervisorModel.mk fun _ : Nat => (none : Option Nat)) 0

/-- C8: Add ordering: whenever key `k` already holds a token, the call trace of
`Add k v` is exactly supervisor-Remove of the old token, then the replacement
notification, then supervisor-Add of `v`; in particular the stop occurs at an
earlier trace position than the start, and both the stop and the notification
are in the trace of calls issued before Add returns. -/
theorem C8_add_ordering {K S : Type} [DecidableEq K] (s : ServiceMap K S) (k : K) (v : S)
    (tok : Nat) (htok : mapLookup s.tokens k = some tok) :
    (s.Add k v).2 =
      [Effect.supRemove tok, Effect.logFailure k, Effect.supStart v s.nextToken] ∧
    ∃ i j : Nat, i < j ∧
      (s.Add k v).2.get? i = some (Effect.supRemove tok) ∧
      (s.Add k v).2.get? j = some (Effect.supStart v s.nextToken) ∧
      Effect.supRemove tok ∈ (s.Add k v).2 ∧
      Effect.logFailure k ∈ (s.Add k v).2 := by
  have htr := Add_trace_occupied s k v tok htok
  refine ⟨htr, 0, 2, Nat.zero_lt_two, ?_, ?_, ?_, ?_⟩
  · rw [htr]
    rfl
  · rw [htr]
    rfl
  · rw [htr]
    simp
  · rw [htr]
    simp

/-- Witness for C8 at the concrete state `sampleReg`, key 0, token 0. -/
theorem C8_add_ordering_witness :
    mapLookup sampleReg.tokens 0 = some 0 ∧
    ((sampleReg.Add 0 7).2 =
      [Effect.supRemove 0, Effect.logFailure 0, Effect.supStart 7 sampleReg.nextToken] ∧
    ∃ i j : Nat, i < j ∧
      (sampleReg.Add 0 7).2.get? i = some (Effect.supRemove 0) ∧
      (sampleReg.Add 0 7).2.get? j = some (Effect.supStart 7 sampleReg.nextToken) ∧
      Effect.supRemove 0 ∈ (sampleReg.Add 0 7).2 ∧
      Effect.logFailure 0 ∈ (sampleReg.Add 0 7).2) :=
  ⟨rfl, C8_add_ordering sampleReg 0 7 0 rfl⟩

/-- C9: Add on a vacant key is effect-minimal: in every reachable registry state
in which key `k` is absent, the call trace of `Add k v` is exactly one
supervisor start for `v`: one start, no stop, no logger notification. -/
theorem C9_add_vacant_minimal {K S : Type} [DecidableEq K] [Inhabited S]
    (s : ServiceMap K S) (k : K) (v : S) (hr : Reachable s)
    (habs : (s.Get k).2.2.2 = false) :
    (s.Add k v).2 = [Effect.supStart v s.nextToken] ∧
    (s.Add k v).2.countP isStart = 1 ∧
    (s.Add k v).2.countP isStop = 0 ∧
    (s.Add k v).2.countP isLog = 0 := by
  have hwf := reachable_wellFormed s hr
  rw [Get_found, hwf.1 k] at habs
  have htok : mapLookup s.tokens k = none := by
    cases hv : mapLookup s.tokens k with
    | none => rfl
    | some tok => rw [hv] at habs; simp at habs
  have htr := Add_trace_vacant s k v htok
  rw [htr]
  refine ⟨rfl, ?_, ?_, ?_⟩ <;> simp [isStart, isStop, isLog, List.countP_cons]

/-- Witness for C9 at the concrete reachable state `sampleReg` and the vacant
key 1. -/
theorem C9_add_vacant_minimal_witness :
    Reachable sampleReg ∧ (sampleReg.Get 1).2.2.2 = false ∧
    ((sampleReg.Add 1 7).2 = [Effect.supStart 7 sampleReg.nextToken] ∧
     (sampleReg.Add 1 7).2.countP isStart = 1 ∧
     (sampleReg.Add 1 7).2.countP isStop = 0 ∧
     (sampleReg.Add 1 7).2.countP isLog = 0) :=
  ⟨⟨[Op.add 0 5], rfl⟩, rfl,
    C9_add_vacant_minimal sampleReg 1 7 ⟨[Op.add 0 5], rfl⟩ rfl⟩

/-- C10: Frame property on other keys: for every registry state and every key
`j` distinct from `k`, each of `Add k v`, `Remove k` and `RemoveAndWait k`
leaves the `services` and `tokens` entries at `j` unchanged, and `Get j`
returns the same result before and after the operation. -/
theorem C10_frame_other_keys {K S : Type} [DecidableEq K] [Inhabited S]
    (s : ServiceMap K S) (k j : K) (v : S) (t : Nat) (c : Bool) (hne : j ≠ k) :
    (mapLookup (s.Add k v).1.services j = mapLookup s.services j ∧
     mapLookup (s.Add k v).1.tokens j = mapLookup s.tokens j ∧
     ((s.Add k v).1.Get j).2.2 = (s.Get j).2.2) ∧
    (mapLookup (s.Remove k).1.services j = mapLookup s.services j ∧
     mapLookup (s.Remove k).1.tokens j = mapLookup s.tokens j ∧
     ((s.Remove k).1.Get j).2.2 = (s.Get j).2.2) ∧
    (mapLookup (s.RemoveAndWait k t c).1.services j = mapLookup s.services j ∧
     mapLookup (s.RemoveAndWait k t c).1.tokens j = mapLookup s.tokens j ∧
     ((s.RemoveAndWait k t c).1.Get j).2.2 = (s.Get j).2.2) := by
  have ha1 : mapLookup (s.Add k v).1.services j = mapLookup s.services j := by
    rw [Add_services]
    exact mapLookup_mapInsert_ne _ _ _ _ hne
  have ha2 : mapLookup (s.Add k v).1.tokens j = mapLookup s.tokens j := by
    rw [Add_tokens]
    exact mapLookup_mapInsert_ne _ _ _ _ hne
  have hb1 : mapLookup (s.Remove k).1.services j = mapLookup s.services j := by
    rw [Remove_services]
    exact mapLookup_mapDelete_ne _ _ _ hne
  have hb2 : mapLookup (s.Remove k).1.tokens j = mapLookup s.tokens j := by
    rw [Remove_tokens]
    exact mapLookup_mapDelete_ne _ _ _ hne
  have hc1 : mapLookup (s.RemoveAndWait k t c).1.services j = mapLookup s.services j := by
    rw [RemoveAndWait_services]
    exact mapLookup_mapDelete_ne _ _ _ hne
  have hc2 : mapLookup (s.RemoveAndWait k t c).1.tokens j = mapLookup s.tokens j := by
    rw [RemoveAndWait_tokens]
    exact mapLookup_mapDelete_ne _ _ _ hne
  exact ⟨⟨ha1, ha2, Get_result_congr _ _ _ ha1⟩,
    ⟨hb1, hb2, Get_result_congr _ _ _ hb1⟩,
    ⟨hc1, hc2, Get_result_congr _ _ _ hc1⟩⟩

/-- Witness for C10 at the concrete state `sampleReg`, mutated key 0,
observed key 1, timeout 3. -/
theorem C10_frame_other_keys_witness :
    (1 : Nat) ≠ 0 ∧
    ((mapLookup (sampleReg.Add 0 7).1.services 1 = mapLookup sampleReg.services 1 ∧
      mapLookup (sampleReg.Add 0 7).1.tokens 1 = mapLookup sampleReg.tokens 1 ∧
      ((sampleReg.Add 0 7).1.Get 1).2.2 = (sampleReg.Get 1).2.2) ∧
     (mapLookup (sampleReg.Remove 0).1.services 1 = mapLookup sampleReg.services 1 ∧
      mapLookup (sampleReg.Remove 0).1.tokens 1 = mapLookup sampleReg.tokens 1 ∧
      ((sampleReg.Remove 0).1.Get 1).2.2 = (sampleReg.Get 1).2.2) ∧
     (mapLookup (sampleReg.RemoveAndWait 0 3 true).1.services 1 =
        mapLookup sampleReg.services 1 ∧
      mapLookup (sampleReg.RemoveAndWait 0 3 true).1.tokens 1 =
        mapLookup sampleReg.tokens 1 ∧
      ((sampleReg.RemoveAndWait 0 3 true).1.Get 1).2.2 = (sampleReg.Get 1).2.2)) :=
  ⟨one_ne_zero, C10_frame_other_keys sampleReg 0 1 7 3 true one_ne_zero⟩

end ServiceMapSpec
